import Mathlib

/-!
Verification of the NTS tracklist extractor (`src/vercel_app.py`).

The Python source is shallowly embedded over `List Char`:
`extract_tracklist_from_html` (anchor search + string/escape-aware bracket
scan + JSON decode), `is_unreleased_track`, the classification loop and
result construction of `fetch_nts_tracklist`, and `create_csv`.
-/

namespace NTS

/-- Named characters, so that brace characters never appear literally. -/
def quoteC : Char := '"'

def bslashC : Char := '\\'

def lbrackC : Char := '['

def rbrackC : Char := ']'

def lbraceC : Char := Char.ofNat 123

def rbraceC : Char := Char.ofNat 125

/-- Bool test: is the char list `needle` a prefix of `hay`? -/
def isPref : List Char → List Char → Bool
  | [], _ => true
  | _ :: _, [] => false
  | a :: as, b :: bs => a = b && isPref as bs

/-- Python `hay.find(needle)`: index of the first occurrence, `none` for -1. -/
def findSub (needle : List Char) : List Char → Option Nat
  | [] => if isPref needle [] then some 0 else none
  | c :: t => if isPref needle (c :: t) then some 0 else (findSub needle t).map (· + 1)

/-- Index of the first occurrence of the character `c` in a char list. -/
def findCharIn (c : Char) : List Char → Option Nat
  | [] => none
  | a :: t => if a = c then some 0 else (findCharIn c t).map (· + 1)

/-- Python `hay.find(c, k)`: first occurrence of `c` at index `k` or later. -/
def findCharFrom (hay : List Char) (c : Char) (k : Nat) : Option Nat :=
  (findCharIn c (hay.drop k)).map (· + k)

/-- State of the bracket scan in `extract_tracklist_from_html`:
`bracket_count`, `in_string`, `escape_next`. -/
structure ScanState where
  depth : Int
  inString : Bool
  escapeNext : Bool
  deriving DecidableEq, Repr

def initScan : ScanState := ⟨0, false, false⟩

/-- One iteration of the scan loop body (lines 31-49 of the source):
the state after processing character `c`. -/
def scanStep (s : ScanState) (c : Char) : ScanState :=
  if s.escapeNext then { s with escapeNext := false }
  else if c = bslashC then { s with escapeNext := true }
  else if c = quoteC then { s with inString := !s.inString }
  else if s.inString then s
  else if c = lbrackC || c = lbraceC then { s with depth := s.depth + 1 }
  else if c = rbrackC || c = rbraceC then { s with depth := s.depth - 1 }
  else s

/-- The loop's termination test (line 51 of the source): after processing
`c` from state `s`, does `bracket_count == 0 and char == ']'` hold?  The
test is only reached when none of the `continue` branches fired. -/
def scanDone (s : ScanState) (c : Char) : Bool :=
  if s.escapeNext then false
  else if c = bslashC then false
  else if c = quoteC then false
  else if s.inString then false
  else decide ((scanStep s c).depth = 0) && decide (c = rbrackC)

/-- Run the scan over a character list, returning the offset of the
character at which the loop's termination test first succeeds. -/
def scanList : ScanState → List Char → Option Nat
  | _, [] => none
  | s, c :: cs => if scanDone s c then some 0 else (scanList (scanStep s c) cs).map (· + 1)

/-- The 12 characters before the bracket in the anchor literal. -/
def preAnchor : List Char :=
  ['"', 't', 'r', 'a', 'c', 'k', 'l', 'i', 's', 't', '"', ':']

/-- The anchor literal `"tracklist":[` followed by an opening brace,
exactly the string searched for on line 20 of the source. -/
def anchorChars : List Char := preAnchor ++ [lbrackC, lbraceC]

/-- Lines 20-53 of `extract_tracklist_from_html`: find the anchor, find the
next `[`, scan forward at most 500000 characters, and return the slice
`html[json_start:json_end]` handed to `json.loads` (or `none`). -/
def extractSlice (html : List Char) : Option (List Char) :=
  match findSub anchorChars html with
  | none => none
  | some tStart =>
    match findCharFrom html lbrackC tStart with
    | none => none
    | some jsonStart =>
      match scanList initScan ((html.drop jsonStart).take 500000) with
      | none => none
      | some k => some ((html.drop jsonStart).take (k + 1))

/-- Decoded JSON values, the result type of `json.loads`.  Numbers keep
their raw source text; no claim inspects numeric values. -/
inductive JValue : Type where
  | null
  | bool (b : Bool)
  | num (raw : List Char)
  | str (s : List Char)
  | arr (xs : List JValue)
  | obj (fields : List (List Char × JValue))

/-- JSON whitespace accepted between tokens by `json.loads`. -/
def isWsJ (c : Char) : Bool := c = ' ' || c = '\t' || c = '\n' || c = '\r'

def skipWs (s : List Char) : List Char := s.dropWhile isWsJ

def hexVal (c : Char) : Option Nat :=
  if '0' ≤ c ∧ c ≤ '9' then some (c.toNat - 48)
  else if 'a' ≤ c ∧ c ≤ 'f' then some (c.toNat - 87)
  else if 'A' ≤ c ∧ c ≤ 'F' then some (c.toNat - 55)
  else none

def parseHex4 : List Char → Option (Nat × List Char)
  | a :: b :: c :: d :: r =>
    match hexVal a, hexVal b, hexVal c, hexVal d with
    | some x, some y, some z, some w => some (((x * 16 + y) * 16 + z) * 16 + w, r)
    | _, _, _, _ => none
  | _ => none

/-- The character denoted by a single-character string escape. -/
def escChar (e : Char) : Option Char :=
  if e = quoteC then some quoteC
  else if e = bslashC then some bslashC
  else if e = '/' then some '/'
  else if e = 'b' then some (Char.ofNat 8)
  else if e = 'f' then some (Char.ofNat 12)
  else if e = 'n' then some '\n'
  else if e = 'r' then some '\r'
  else if e = 't' then some '\t'
  else none

/-- Body of a JSON string literal after the opening quote: returns the
decoded characters and the input remaining after the closing quote. -/
def parseStrBody (fuel : Nat) (s : List Char) : Option (List Char × List Char) :=
  match fuel with
  | 0 => none
  | f + 1 =>
    match s with
    | [] => none
    | c :: rest =>
      if c = quoteC then some ([], rest)
      else if c = bslashC then
        match rest with
        | [] => none
        | e :: r2 =>
          if e = 'u' then
            match parseHex4 r2 with
            | some (n, r3) => (parseStrBody f r3).map fun p => (Char.ofNat n :: p.1, p.2)
            | none => none
          else
            match escChar e with
            | some d => (parseStrBody f r2).map fun p => (d :: p.1, p.2)
            | none => none
      else if c.toNat < 32 then none
      else (parseStrBody f rest).map fun p => (c :: p.1, p.2)

/-- A JSON number token (Python's `NUMBER_RE`), kept as raw text. -/
def parseNum (s : List Char) : Option (JValue × List Char) :=
  let sgn : List Char × List Char :=
    match s with
    | c :: r => if c = '-' then ([c], r) else ([], s)
    | [] => ([], s)
  match sgn.2 with
  | [] => none
  | c :: r =>
    if ¬ c.isDigit then none
    else
      let ip : List Char × List Char :=
        if c = '0' then ([c], r)
        else (c :: r.takeWhile Char.isDigit, r.dropWhile Char.isDigit)
      let fp : List Char × List Char :=
        match ip.2 with
        | p :: pr =>
          if p = '.' ∧ pr.takeWhile Char.isDigit ≠ [] then
            (p :: pr.takeWhile Char.isDigit, pr.dropWhile Char.isDigit)
          else ([], ip.2)
        | [] => ([], ip.2)
      let ep : List Char × List Char :=
        match fp.2 with
        | p :: pr =>
          if p = 'e' ∨ p = 'E' then
            let es : List Char × List Char :=
              match pr with
              | q :: qr => if q = '+' ∨ q = '-' then ([q], qr) else ([], pr)
              | [] => ([], pr)
            if es.2.takeWhile Char.isDigit ≠ [] then
              (p :: (es.1 ++ es.2.takeWhile Char.isDigit), es.2.dropWhile Char.isDigit)
            else ([], fp.2)
          else ([], fp.2)
        | [] => ([], fp.2)
      some (.num (sgn.1 ++ ip.1 ++ fp.1 ++ ep.1), ep.2)

def trueChars : List Char := ['t', 'r', 'u', 'e']

def falseChars : List Char := ['f', 'a', 'l', 's', 'e']

def nullChars : List Char := ['n', 'u', 'l', 'l']

def nanChars : List Char := ['N', 'a', 'N']

def infChars : List Char := ['I', 'n', 'f', 'i', 'n', 'i', 't', 'y']

def negInfChars : List Char := '-' :: infChars

mutual

/-- One JSON value (model of Python's `json` scanner), with fuel. -/
def parseValue (fuel : Nat) (s0 : List Char) : Option (JValue × List Char) :=
  match fuel with
  | 0 => none
  | f + 1 =>
    let s := skipWs s0
    if isPref trueChars s then some (.bool true, s.drop 4)
    else if isPref falseChars s then some (.bool false, s.drop 5)
    else if isPref nullChars s then some (.null, s.drop 4)
    else if isPref nanChars s then some (.num nanChars, s.drop 3)
    else if isPref infChars s then some (.num infChars, s.drop 8)
    else if isPref negInfChars s then some (.num negInfChars, s.drop 9)
    else
      match s with
      | [] => none
      | c :: rest =>
        if c = quoteC then (parseStrBody (f + 1) rest).map fun p => (JValue.str p.1, p.2)
        else if c = lbrackC then
          match skipWs rest with
          | d :: r2 =>
            if d = rbrackC then some (.arr [], r2)
            else (parseElemsRest f (d :: r2)).map fun p => (JValue.arr p.1, p.2)
          | [] => none
        else if c = lbraceC then
          match skipWs rest with
          | d :: r2 =>
            if d = rbraceC then some (.obj [], r2)
            else (parseMembersRest f (d :: r2)).map fun p => (JValue.obj p.1, p.2)
          | [] => none
        else parseNum s

/-- Elements of a non-empty JSON array, up to and including `]`. -/
def parseElemsRest (fuel : Nat) (s : List Char) : Option (List JValue × List Char) :=
  match fuel with
  | 0 => none
  | f + 1 =>
    match parseValue f s with
    | none => none
    | some (v, r) =>
      match skipWs r with
      | c :: rr =>
        if c = ',' then (parseElemsRest f rr).map fun p => (v :: p.1, p.2)
        else if c = rbrackC then some ([v], rr)
        else none
      | [] => none

/-- Members of a non-empty JSON object, up to and including the close. -/
def parseMembersRest (fuel : Nat) (s : List Char) :
    Option (List (List Char × JValue) × List Char) :=
  match fuel with
  | 0 => none
  | f + 1 =>
    match skipWs s with
    | c :: r =>
      if c = quoteC then
        match parseStrBody (f + 1) r with
        | none => none
        | some (k, r1) =>
          match skipWs r1 with
          | ':' :: r2 =>
            match parseValue f r2 with
            | none => none
            | some (v, r3) =>
              match skipWs r3 with
              | c2 :: r4 =>
                if c2 = ',' then
                  (parseMembersRest f r4).map fun p => ((k, v) :: p.1, p.2)
                else if c2 = rbraceC then some ([(k, v)], r4)
                else none
              | [] => none
          | _ => none
      else none
    | [] => none

end

/-- Model of `json.loads`: parse one value and require only whitespace to
remain.  The fuel is ample for any input of this length. -/
def jsonParse (s : List Char) : Option JValue :=
  match parseValue (2 * s.length + 2) s with
  | some (v, rest) => if skipWs rest = [] then some v else none
  | none => none

/-- Lines 18-61 of the source: locate the slice and decode it; both the
anchor-absent case and the `json.JSONDecodeError` case yield `none`. -/
def extract_tracklist_from_html (html : List Char) : Option JValue :=
  match extractSlice html with
  | none => none
  | some s => jsonParse s

/-- Python `str.strip()` on a char list (whitespace at both ends). -/
def trimChars (s : List Char) : List Char :=
  ((s.dropWhile Char.isWhitespace).reverse.dropWhile Char.isWhitespace).reverse

def lowerChars (s : List Char) : List Char := s.map Char.toLower

/-- Python `needle in hay` on strings. -/
def containsSub (hay needle : List Char) : Bool := (findSub needle hay).isSome

/-- The keyword list of `is_unreleased_track` (lines 70-78). -/
def unreleasedKeywords : List (List Char) :=
  ["unreleased".data, "forthcoming".data, "tbc".data, "tba".data,
   "to be announced".data, "id - id".data, "unknown".data]

/-- Lines 64-80 of the source: empty titles count as unreleased, otherwise
any keyword contained in the lowercased title does. -/
def is_unreleased_track (title : List Char) : Bool :=
  if title = [] then true
  else unreleasedKeywords.any fun k => containsSub (lowerChars title) k

/-- One entry of the `formatted_tracks` list built on lines 126-130. -/
structure FormattedTrack where
  formatted_line : List Char
  title : List Char
  artist : List Char
  deriving DecidableEq, Repr

/-- Python `", ".join` on a list of strings. -/
def joinComma : List (List Char) → List Char
  | [] => []
  | [x] => x
  | x :: y :: rest => x ++ (", ".data ++ joinComma (y :: rest))

/-- Lines 115-130 of the source: build the artist string, the annotated
title and the `"{title} - {artist}"` display line. -/
def buildLine (title : List Char) (mains feats remixes : List (List Char)) :
    FormattedTrack :=
  let artist0 := joinComma mains
  let artist := if feats = [] then artist0 else artist0 ++ (" ft. ".data ++ joinComma feats)
  let title2 :=
    if remixes = [] then title
    else title ++ (" (".data ++ (joinComma remixes ++ " Remix)".data))
  ⟨title2 ++ (" - ".data ++ artist), title2, artist⟩

/-- Python `dict.get` on the decoded field list; a later duplicate key
overwrites an earlier one, as in a Python dict built from parsed JSON. -/
def objGet (fields : List (List Char × JValue)) (k : List Char) : Option JValue :=
  match fields with
  | [] => none
  | (k1, v) :: rest =>
    match objGet rest k with
    | some v1 => some v1
    | none => if k1 = k then some v else none

def titleKey : List Char := "title".data

def nameKey : List Char := "name".data

def mainKey : List Char := "mainArtists".data

def featKey : List Char := "featuringArtists".data

def remixKey : List Char := "remixArtists".data

/-- Python `track.get('title', '')` followed by `.strip()`-readiness:
`none` models the `AttributeError` raised when the value is not a string. -/
def getStrDefault (fs : List (List Char × JValue)) (k : List Char) : Option (List Char) :=
  match objGet fs k with
  | none => some []
  | some (.str s) => some s
  | some _ => none

/-- Python `[a['name'] for a in lst]`: `none` models the exception raised
when an element is not an object with a string `name`. -/
def namesOf : List JValue → Option (List (List Char))
  | [] => some []
  | .obj fs :: rest =>
    match objGet fs nameKey with
    | some (.str n) => (namesOf rest).map (n :: ·)
    | _ => none
  | _ :: _ => none

/-- Python `[a['name'] for a in track.get(key, [])]`. -/
def artistNames (v : Option JValue) : Option (List (List Char)) :=
  match v with
  | none => some []
  | some (.arr xs) => namesOf xs
  | some _ => none

/-- Outcome of one iteration of the loop on lines 100-130: an exception,
a `continue`, or an appended formatted track. -/
inductive EntryStep : Type where
  | crash
  | skip
  | emit (f : FormattedTrack)
  deriving DecidableEq

/-- The loop body of `fetch_nts_tracklist` (lines 100-130) on one decoded
entry. -/
def evalEntry (track : JValue) : EntryStep :=
  match track with
  | .obj fs =>
    match getStrDefault fs titleKey with
    | none => .crash
    | some rawTitle =>
      let title := trimChars rawTitle
      if is_unreleased_track title then .skip
      else
        match artistNames (objGet fs mainKey), artistNames (objGet fs featKey),
              artistNames (objGet fs remixKey) with
        | some mains, some feats, some remixes =>
          if mains = [] then .skip
          else .emit (buildLine title mains feats remixes)
        | _, _, _ => .crash
  | _ => .crash

/-- The whole loop: `none` when some iteration raises, otherwise the
emitted tracks in input order. -/
def processTracks : List JValue → Option (List FormattedTrack)
  | [] => some []
  | t :: ts =>
    match evalEntry t with
    | .crash => none
    | .skip => processTracks ts
    | .emit f => (processTracks ts).map (f :: ·)

/-- A decoded entry in the shape the classifier claims speak about: a
title string and the three contributor name lists. -/
structure RawTrack where
  title : List Char
  mainArtists : List (List Char)
  featuringArtists : List (List Char)
  remixArtists : List (List Char)
  deriving DecidableEq, Repr

/-- A contributor list as decoded JSON: `[ ..., (name : n), ...]`. -/
def namesJ (ns : List (List Char)) : JValue :=
  .arr (ns.map fun n => .obj [(nameKey, .str n)])

/-- The decoded-JSON form of a `RawTrack` entry. -/
def toJ (t : RawTrack) : JValue :=
  .obj [(titleKey, .str t.title), (mainKey, namesJ t.mainArtists),
        (featKey, namesJ t.featuringArtists), (remixKey, namesJ t.remixArtists)]

/-- The dictionary built on lines 132-137 of the source. -/
structure TracklistResult where
  show_name : List Char
  url : List Char
  track_count : Nat
  tracks : List FormattedTrack
  deriving DecidableEq, Repr

/-- Result of `fetch_nts_tracklist` after a successful fetch: a raised
exception, the `None` return, or a result dictionary. -/
inductive FetchOutcome : Type where
  | err
  | noTracklist
  | ok (r : TracklistResult)
  deriving DecidableEq, Repr

/-- Leftmost match of the regex `/shows/([^/]+)/` (line 96): at the first
position where `/shows/` is followed by a non-empty run of non-slash
characters and then a slash, return that run. -/
def showSegAux : List Char → Option (List Char)
  | [] => none
  | c :: t =>
    if isPref ("/shows/".data) (c :: t) then
      let rest := (c :: t).drop 7
      let seg := rest.takeWhile (fun ch => ch ≠ '/')
      match rest.drop seg.length with
      | '/' :: _ => if seg = [] then showSegAux t else some seg
      | _ => showSegAux t
    else showSegAux t

/-- Python `str.title()` on ASCII text: a letter after a non-letter is
uppercased, a letter after a letter is lowercased. -/
def pyTitleAux : Bool → List Char → List Char
  | _, [] => []
  | prevCased, c :: t =>
    if c.isAlpha then (if prevCased then c.toLower else c.toUpper) :: pyTitleAux true t
    else c :: pyTitleAux false t

def pyTitle (s : List Char) : List Char := pyTitleAux false s

/-- Lines 96-97: the show name from the URL, or the fallback. -/
def show_name_of (url : List Char) : List Char :=
  match showSegAux url with
  | some seg => pyTitle (seg.map fun c => if c = '-' then ' ' else c)
  | none => "NTS Show".data

/-- Lines 90-137 of `fetch_nts_tracklist`, given the fetched page body:
`if not tracklist: return None`, then the classification loop and the
result dictionary.  A successful `json.loads` of the slice is always an
array because the slice starts at a `[`; other values cannot occur. -/
def fetch_nts_tracklist (url html : List Char) : FetchOutcome :=
  match extract_tracklist_from_html html with
  | none => .noTracklist
  | some (.arr []) => .noTracklist
  | some (.arr xs) =>
    match processTracks xs with
    | none => .err
    | some fs => .ok ⟨show_name_of url, url, fs.length, fs⟩
  | some _ => .err

/-- Python `csv`'s QUOTE_MINIMAL test: delimiter, quote char, or a
line-terminator character forces quoting. -/
def csvSpecial (c : Char) : Bool := c = ',' || c = quoteC || c = '\r' || c = '\n'

/-- Double every quote character (csv `doublequote=True`). -/
def escQuotes : List Char → List Char
  | [] => []
  | c :: t => if c = quoteC then quoteC :: quoteC :: escQuotes t else c :: escQuotes t

/-- One csv field under QUOTE_MINIMAL. -/
def renderField (f : List Char) : List Char :=
  if f.any csvSpecial then quoteC :: (escQuotes f ++ [quoteC]) else f

/-- One `writer.writerow` call: comma-joined fields plus `\r\n`. -/
def renderRow (fs : List (List Char)) : List Char :=
  List.intercalate [','] (fs.map renderField) ++ ['\r', '\n']

/-- The track rows written by the loop on lines 157-161. -/
def csvRows : List FormattedTrack → List Char
  | [] => []
  | t :: ts => renderRow [t.title, t.artist] ++ csvRows ts

/-- Lines 148-164 of the source: header row, then one row per track. -/
def create_csv (tracks : List FormattedTrack) : List Char :=
  renderRow ["Song".data, "Artist".data] ++ csvRows tracks

/-- The characters the bracket scan reacts to. -/
def isSpecial (c : Char) : Bool :=
  c = quoteC || c = bslashC || c = lbrackC || c = rbrackC || c = lbraceC || c = rbraceC

/-- One source character of a string literal body: either a plain
character (not a quote, not a backslash) or a backslash followed by an
arbitrary character. -/
inductive SChar : Type where
  | plain (c : Char) (hq : c ≠ quoteC) (hb : c ≠ bslashC)
  | esc (c : Char)

def SChar.render : SChar → List Char
  | .plain c _ _ => [c]
  | .esc c => [bslashC, c]

def renderSBody : List SChar → List Char
  | [] => []
  | s :: rest => s.render ++ renderSBody rest

mutual

/-- Source text of a balanced bracketed chunk: a neutral character, a
quoted string literal, or a bracketed/braced group.  Every well-formed
JSON value's text is generated by this grammar (digits, letters, commas,
colons and whitespace are neutral characters). -/
inductive JTxt : Type where
  | neutral (c : Char) (h : isSpecial c = false)
  | strT (body : List SChar)
  | arrT (inner : JSeq)
  | objT (inner : JSeq)

/-- A sequence of chunks (the contents between brackets). -/
inductive JSeq : Type where
  | nil
  | cons (t : JTxt) (ts : JSeq)

end

mutual

def JTxt.render : JTxt → List Char
  | .neutral c _ => [c]
  | .strT body => quoteC :: (renderSBody body ++ [quoteC])
  | .arrT inner => lbrackC :: (JSeq.render inner ++ [rbrackC])
  | .objT inner => lbraceC :: (JSeq.render inner ++ [rbraceC])

def JSeq.render : JSeq → List Char
  | .nil => []
  | .cons t ts => JTxt.render t ++ JSeq.render ts

end

/-- The chunk `A` is scanned from state `s` to state `s1` without the
termination test ever succeeding inside it. -/
def ScanNeutral (s : ScanState) (A : List Char) (s1 : ScanState) : Prop :=
  ∀ rest, scanList s (A ++ rest) = (scanList s1 rest).map (· + A.length)

/-- A run of `n` copies of one neutral character, as a chunk sequence. -/
def repNeutral (n : Nat) (c : Char) (h : isSpecial c = false) : JSeq :=
  match n with
  | 0 => .nil
  | m + 1 => .cons (.neutral c h) (repNeutral m c h)

def xPlain : SChar := SChar.plain 'x' (by decide) (by decide)

def aPlain : SChar := SChar.plain 'a' (by decide) (by decide)

/-- Contents of the single object of the oversized array: a key, a colon,
and a 500002-character string value. -/
def bigObjSeq : JSeq :=
  .cons (JTxt.strT [aPlain])
    (.cons (JTxt.neutral ':' (by decide))
      (.cons (JTxt.strT (List.replicate 500000 xPlain)) .nil))

/-- A well-formed JSON array text of 500010 characters: one object holding
one key and one 500000-character string value. -/
def bigArrT : JTxt := JTxt.arrT (.cons (JTxt.objT bigObjSeq) .nil)

/-- The anchor immediately followed by that oversized array. -/
def bigHtml : List Char := preAnchor ++ bigArrT.render

/-- A bracketed span whose closing bracket lies 500004 characters past its
opening bracket. -/
def c4Seq : JSeq := .cons (JTxt.objT (repNeutral 500001 'x' (by decide))) .nil

def c4Html : List Char := preAnchor ++ (JTxt.arrT c4Seq).render

def c1SmallInner : JSeq := .cons (JTxt.objT .nil) .nil

def c1SmallHtml : List Char := anchorChars ++ ([rbraceC, rbrackC] ++ ['x'])

/-- Anchor followed by `[ (obj ,) ]`: the scan finds a balanced span whose
slice is not valid JSON. -/
def c3BadHtml : List Char := anchorChars ++ [',', rbraceC, rbrackC]

def c3NoAnchorHtml : List Char := ['x']

/-- The loop body of lines 100-130 applied to a well-typed entry. -/
def emitTrack (t : RawTrack) : FormattedTrack :=
  buildLine (trimChars t.title) t.mainArtists t.featuringArtists t.remixArtists

/-- Survivor predicate in the claim's wording: the trimmed title is
non-empty, no keyword of the fixed set occurs in the lowercased title,
and the main-contributor list is non-empty. -/
def surviveSpec (t : RawTrack) : Bool :=
  !(trimChars t.title = [] ||
    unreleasedKeywords.any (fun k => containsSub (lowerChars (trimChars t.title)) k) ||
    t.mainArtists = [])

/-- Emission in the claim's wording: join main names with a comma-space,
append a ft. part when featuring names exist, append the remix annotation
to the title when remix names exist, and form `title - artist`. -/
def emitSpec (t : RawTrack) : Option FormattedTrack :=
  if surviveSpec t then
    let artist := joinComma t.mainArtists ++
      (if t.featuringArtists = [] then [] else " ft. ".data ++ joinComma t.featuringArtists)
    let tl := trimChars t.title ++
      (if t.remixArtists = [] then []
       else " (".data ++ (joinComma t.remixArtists ++ " Remix)".data))
    some ⟨tl ++ (" - ".data ++ artist), tl, artist⟩
  else none

def wavesTrack : RawTrack := ⟨"Waves".data, ["A".data], ["B".data], ["C".data]⟩

/-- The loop's survival condition exactly as coded: not unreleased, and a
non-empty main-artist list. -/
def keepTrack (t : RawTrack) : Bool :=
  !is_unreleased_track (trimChars t.title) && !(t.mainArtists = [])

/-- An entry whose single main contributor has an empty name. -/
def emptyNameTrack : RawTrack := ⟨"X".data, [[]], [], []⟩

def plainTrack : RawTrack := ⟨"X".data, ["A".data], [], []⟩

def c9Url : List Char := "https://www.nts.live/shows/my-show/episodes/ep-1".data

def c9Html : List Char :=
  "\"tracklist\":[\x7b\"title\":\"X\",\"mainArtists\":[\x7b\"name\":\"Y\"\x7d]\x7d]".data

def c10Html : List Char :=
  "\"tracklist\":[\x7b\"title\":\"tbc\",\"mainArtists\":[\x7b\"name\":\"A\"\x7d]\x7d]".data

/-- The result built by `fetch_nts_tracklist` on `c9Url` and `c9Html`. -/
def c9Result : TracklistResult :=
  ⟨"My Show".data, c9Url, 1, [⟨"X - Y".data, "X".data, "Y".data⟩]⟩

/-- The decoded entry produced by `json.loads` on the `c10Html` slice. -/
def c10Entry : JValue :=
  .obj [(titleKey, .str "tbc".data),
        (mainKey, .arr [.obj [(nameKey, .str "A".data)]])]

theorem scanNeutral_nil (s : ScanState) : ScanNeutral s [] s := by
  intro rest
  cases h : scanList s rest <;> simp [h]

theorem scanNeutral_single (s : ScanState) (c : Char) (h : scanDone s c = false) :
    ScanNeutral s [c] (scanStep s c) := by
  intro rest
  simp [scanList, h]

theorem scanNeutral_append {s t u : ScanState} {A B : List Char}
    (h1 : ScanNeutral s A t) (h2 : ScanNeutral t B u) : ScanNeutral s (A ++ B) u := by
  intro rest
  calc scanList s ((A ++ B) ++ rest) = scanList s (A ++ (B ++ rest)) := by
        rw [List.append_assoc]
    _ = (scanList t (B ++ rest)).map (· + A.length) := h1 _
    _ = ((scanList u rest).map (· + B.length)).map (· + A.length) := by rw [h2 _]
    _ = (scanList u rest).map (· + (A ++ B).length) := by
        cases scanList u rest <;> simp <;> omega

theorem step_out (d : Int) (c : Char) (h : isSpecial c = false) :
    scanStep ⟨d, false, false⟩ c = ⟨d, false, false⟩ ∧
      scanDone ⟨d, false, false⟩ c = false := by
  simp only [isSpecial, Bool.or_eq_false_iff, decide_eq_false_iff_not] at h
  obtain ⟨⟨⟨⟨⟨h1, h2⟩, h3⟩, h4⟩, h5⟩, h6⟩ := h
  constructor <;> simp [scanStep, scanDone, h1, h2, h3, h4, h5, h6]

theorem done_in (s : ScanState) (c : Char) (h : s.inString = true) :
    scanDone s c = false := by
  unfold scanDone
  simp [h]

theorem step_in (d : Int) (c : Char) (hq : c ≠ quoteC) (hb : c ≠ bslashC) :
    scanStep ⟨d, true, false⟩ c = ⟨d, true, false⟩ := by
  simp [scanStep, hq, hb]

theorem step_quote (d : Int) (b : Bool) :
    scanStep ⟨d, b, false⟩ quoteC = ⟨d, !b, false⟩ ∧
      scanDone ⟨d, b, false⟩ quoteC = false := by
  have hqb : quoteC ≠ bslashC := by decide
  constructor <;> simp [scanStep, scanDone, hqb]

theorem step_bslash (d : Int) (b : Bool) :
    scanStep ⟨d, b, false⟩ bslashC = ⟨d, b, true⟩ ∧
      scanDone ⟨d, b, false⟩ bslashC = false := by
  constructor <;> simp [scanStep, scanDone]

theorem step_escaped (s : ScanState) (h : s.escapeNext = true) (c : Char) :
    scanStep s c = { s with escapeNext := false } ∧ scanDone s c = false := by
  constructor <;> simp [scanStep, scanDone, h]

theorem scanSBody (body : List SChar) (d : Int) :
    ScanNeutral ⟨d, true, false⟩ (renderSBody body) ⟨d, true, false⟩ := by
  induction body with
  | nil => exact scanNeutral_nil _
  | cons s rest ih =>
    refine scanNeutral_append ?_ ih
    cases s with
    | plain c hq hb =>
      have h1 := scanNeutral_single ⟨d, true, false⟩ c (done_in _ _ rfl)
      rwa [step_in d c hq hb] at h1
    | esc c =>
      have h1 := scanNeutral_single ⟨d, true, false⟩ bslashC (step_bslash d true).2
      rw [(step_bslash d true).1] at h1
      have h2 := scanNeutral_single ⟨d, true, true⟩ c (step_escaped ⟨d, true, true⟩ rfl c).2
      rw [(step_escaped ⟨d, true, true⟩ rfl c).1] at h2
      exact scanNeutral_append h1 h2

theorem scanStrChunk (body : List SChar) (d : Int) :
    ScanNeutral ⟨d, false, false⟩ ((JTxt.strT body).render) ⟨d, false, false⟩ := by
  have h1 := scanNeutral_single ⟨d, false, false⟩ quoteC (step_quote d false).2
  rw [(step_quote d false).1] at h1
  have h2 := scanSBody body d
  have h3 := scanNeutral_single ⟨d, true, false⟩ quoteC (step_quote d true).2
  rw [(step_quote d true).1] at h3
  have : ScanNeutral ⟨d, false, false⟩ ([quoteC] ++ (renderSBody body ++ [quoteC]))
      ⟨d, false, false⟩ := scanNeutral_append h1 (scanNeutral_append h2 h3)
  simpa [JTxt.render] using this

theorem step_lbrack (d : Int) :
    scanStep ⟨d, false, false⟩ lbrackC = ⟨d + 1, false, false⟩ ∧
      scanDone ⟨d, false, false⟩ lbrackC = false := by
  constructor <;> simp [scanStep, scanDone, lbrackC, bslashC, quoteC, lbraceC, rbrackC]

theorem step_lbrace (d : Int) :
    scanStep ⟨d, false, false⟩ lbraceC = ⟨d + 1, false, false⟩ ∧
      scanDone ⟨d, false, false⟩ lbraceC = false := by
  constructor <;> simp [scanStep, scanDone, lbrackC, bslashC, quoteC, lbraceC, rbrackC]

theorem step_rbrack (d : Int) :
    scanStep ⟨d, false, false⟩ rbrackC = ⟨d - 1, false, false⟩ ∧
      scanDone ⟨d, false, false⟩ rbrackC = decide (d - 1 = 0) := by
  constructor <;>
    simp [scanStep, scanDone, lbrackC, bslashC, quoteC, lbraceC, rbrackC, rbraceC]

theorem step_rbrace (d : Int) :
    scanStep ⟨d, false, false⟩ rbraceC = ⟨d - 1, false, false⟩ ∧
      scanDone ⟨d, false, false⟩ rbraceC = false := by
  constructor <;>
    simp [scanStep, scanDone, lbrackC, bslashC, quoteC, lbraceC, rbrackC, rbraceC]

mutual

/-- Scanning any chunk from an out-of-string state at depth at least 1
returns to the same state and never triggers the termination test. -/
theorem scanTxt : ∀ (t : JTxt) (d : Int), 1 ≤ d →
    ScanNeutral ⟨d, false, false⟩ t.render ⟨d, false, false⟩
  | .neutral c h, d, _ => by
    have h1 := scanNeutral_single ⟨d, false, false⟩ c (step_out d c h).2
    rw [(step_out d c h).1] at h1
    simpa [JTxt.render] using h1
  | .strT body, d, _ => scanStrChunk body d
  | .arrT inner, d, hd => by
    have h1 := scanNeutral_single ⟨d, false, false⟩ lbrackC (step_lbrack d).2
    rw [(step_lbrack d).1] at h1
    have h2 := scanSeq inner (d + 1) (by omega)
    have hdone : scanDone ⟨d + 1, false, false⟩ rbrackC = false := by
      rw [(step_rbrack (d + 1)).2]
      simp only [add_sub_cancel_right, decide_eq_false_iff_not]
      omega
    have h3 := scanNeutral_single ⟨d + 1, false, false⟩ rbrackC hdone
    rw [(step_rbrack (d + 1)).1] at h3
    have h4 : ScanNeutral ⟨d, false, false⟩
        ([lbrackC] ++ (JSeq.render inner ++ [rbrackC])) ⟨d + 1 - 1, false, false⟩ :=
      scanNeutral_append h1 (scanNeutral_append h2 h3)
    have he : d + 1 - 1 = d := by omega
    rw [he] at h4
    simpa [JTxt.render] using h4
  | .objT inner, d, hd => by
    have h1 := scanNeutral_single ⟨d, false, false⟩ lbraceC (step_lbrace d).2
    rw [(step_lbrace d).1] at h1
    have h2 := scanSeq inner (d + 1) (by omega)
    have h3 := scanNeutral_single ⟨d + 1, false, false⟩ rbraceC (step_rbrace (d + 1)).2
    rw [(step_rbrace (d + 1)).1] at h3
    have h4 : ScanNeutral ⟨d, false, false⟩
        ([lbraceC] ++ (JSeq.render inner ++ [rbraceC])) ⟨d + 1 - 1, false, false⟩ :=
      scanNeutral_append h1 (scanNeutral_append h2 h3)
    have he : d + 1 - 1 = d := by omega
    rw [he] at h4
    simpa [JTxt.render] using h4

/-- Scanning a chunk sequence at depth at least 1 is likewise neutral. -/
theorem scanSeq : ∀ (ts : JSeq) (d : Int), 1 ≤ d →
    ScanNeutral ⟨d, false, false⟩ ts.render ⟨d, false, false⟩
  | .nil, d, _ => by simpa [JSeq.render] using scanNeutral_nil (⟨d, false, false⟩ : ScanState)
  | .cons t ts, d, hd => by
    have h1 := scanTxt t d hd
    have h2 := scanSeq ts d hd
    simpa [JSeq.render] using scanNeutral_append h1 h2

end

/-- Scanning the rendered text of a bracketed array from the initial state
succeeds exactly at its final `]`. -/
theorem scanArr_complete (inner : JSeq) (rest : List Char) :
    scanList initScan ((JTxt.arrT inner).render ++ rest) =
      some ((JSeq.render inner).length + 1) := by
  have h0 : scanDone ⟨0, false, false⟩ lbrackC = false := (step_lbrack 0).2
  have hstep : scanStep ⟨0, false, false⟩ lbrackC = ⟨1, false, false⟩ := by
    rw [(step_lbrack 0).1]
    norm_num
  have hseq := scanSeq inner 1 le_rfl ([rbrackC] ++ rest)
  have hdone : scanDone ⟨1, false, false⟩ rbrackC = true := by
    rw [(step_rbrack 1).2]
    decide
  have hcl : scanList ⟨1, false, false⟩ (rbrackC :: rest) = some 0 := by
    simp [scanList, hdone]
  calc scanList initScan ((JTxt.arrT inner).render ++ rest)
      = scanList ⟨0, false, false⟩
          (lbrackC :: (JSeq.render inner ++ ([rbrackC] ++ rest))) := by
        simp [initScan, JTxt.render]
    _ = (scanList ⟨1, false, false⟩
          (JSeq.render inner ++ ([rbrackC] ++ rest))).map (· + 1) := by
        simp [scanList, h0, hstep]
    _ = ((scanList ⟨1, false, false⟩ ([rbrackC] ++ rest)).map
          (· + (JSeq.render inner).length)).map (· + 1) := by rw [hseq]
    _ = some ((JSeq.render inner).length + 1) := by
        simp only [List.cons_append, List.nil_append] at hcl ⊢
        rw [hcl]
        simp

/-- Scanning a truncated list finds exactly the completions that fall
inside the window. -/
theorem scanList_take (s : ScanState) (l : List Char) (n : Nat) :
    scanList s (l.take n) =
      (scanList s l).bind (fun k => if k < n then some k else none) := by
  induction l generalizing s n with
  | nil => simp [scanList]
  | cons c cs ih =>
    cases n with
    | zero =>
      simp only [List.take_zero]
      cases hd : scanDone s c with
      | true => simp [scanList, hd]
      | false =>
        simp only [scanList, hd, if_neg, Bool.false_eq_true, if_false]
        cases scanList (scanStep s c) cs <;> simp [scanList]
    | succ m =>
      cases hd : scanDone s c with
      | true => simp [scanList, hd]
      | false =>
        simp only [List.take_succ_cons, scanList, hd, Bool.false_eq_true, if_false, ih]
        cases scanList (scanStep s c) cs with
        | none => simp
        | some k =>
          by_cases hk : k < m
          · simp [hk, Nat.succ_lt_succ hk]
          · have : ¬ (k + 1 < m + 1) := by omega
            simp [hk, this]

theorem isPref_append_self : ∀ (xs r : List Char), isPref xs (xs ++ r) = true
  | [], _ => rfl
  | x :: t, r => by simp [isPref, isPref_append_self t r]

theorem isPref_exists {a : List Char} : ∀ {b : List Char}, isPref a b = true →
    ∃ q, b = a ++ q := by
  induction a with
  | nil => exact fun h => ⟨_, rfl⟩
  | cons x t ih =>
    intro b h
    cases b with
    | nil => simp [isPref] at h
    | cons y s =>
      simp only [isPref, Bool.and_eq_true, decide_eq_true_eq] at h
      obtain ⟨q, hq⟩ := ih h.2
      exact ⟨q, by rw [h.1, hq]; rfl⟩

theorem findSub_drop {nd : List Char} : ∀ {hay : List Char} {i : Nat},
    findSub nd hay = some i → isPref nd (hay.drop i) = true := by
  intro hay
  induction hay with
  | nil =>
    intro i h
    by_cases hp : isPref nd [] = true
    · simp only [findSub] at h
      rw [if_pos hp] at h
      cases h
      simpa using hp
    · simp only [findSub] at h
      rw [if_neg hp] at h
      cases h
  | cons c t ih =>
    intro i h
    by_cases hp : isPref nd (c :: t) = true
    · simp only [findSub] at h
      rw [if_pos hp] at h
      cases h
      simpa using hp
    · simp only [findSub] at h
      rw [if_neg hp] at h
      cases hf : findSub nd t with
      | none => rw [hf] at h; cases h
      | some j =>
        rw [hf, Option.map_some'] at h
        cases h
        simpa using ih hf

theorem findSub_self (nd r : List Char) : findSub nd (nd ++ r) = some 0 := by
  cases nd with
  | nil => cases r <;> simp [findSub, isPref]
  | cons c t =>
    have h := isPref_append_self (c :: t) r
    simp only [List.cons_append] at h
    simp only [List.cons_append, findSub, List.append_eq]
    rw [if_pos h]

theorem findCharIn_notmem (c : Char) :
    ∀ (xs : List Char), (∀ a ∈ xs, a ≠ c) →
      ∀ r, findCharIn c (xs ++ (c :: r)) = some xs.length
  | [], _, r => by simp [findCharIn]
  | a :: t, h, r => by
    have ha : a ≠ c := h a (by simp)
    have ht := findCharIn_notmem c t (fun x hx => h x (by simp [hx])) r
    simp [findCharIn, ha, ht]

theorem renderSBody_replicate : ∀ n : Nat,
    (renderSBody (List.replicate n xPlain)).length = n
  | 0 => by simp [renderSBody]
  | n + 1 => by
    rw [List.replicate_succ]
    show (SChar.render xPlain ++ renderSBody (List.replicate n xPlain)).length = n + 1
    rw [List.length_append, renderSBody_replicate n]
    have h : (SChar.render xPlain).length = 1 := rfl
    rw [h]
    omega

theorem repNeutral_len (c : Char) (h : isSpecial c = false) :
    ∀ n : Nat, (JSeq.render (repNeutral n c h)).length = n
  | 0 => by simp [repNeutral, JSeq.render]
  | n + 1 => by
    simp [repNeutral, JSeq.render, JTxt.render, repNeutral_len c h n]

theorem anchored_html_eq (o rest0 : JSeq) :
    preAnchor ++ (JTxt.arrT (.cons (JTxt.objT o) rest0)).render
      = anchorChars ++
        (JSeq.render o ++ ([rbraceC] ++ (JSeq.render rest0 ++ [rbrackC]))) := by
  simp [anchorChars, JTxt.render, JSeq.render]

theorem anchored_findSub (o rest0 : JSeq) :
    findSub anchorChars
      (preAnchor ++ (JTxt.arrT (.cons (JTxt.objT o) rest0)).render) = some 0 := by
  rw [anchored_html_eq]
  exact findSub_self _ _

theorem anchored_findChar (t : JTxt) (inner : JSeq)
    (ht : t.render = lbrackC :: (JSeq.render inner ++ [rbrackC])) :
    findCharFrom (preAnchor ++ t.render) lbrackC 0 = some 12 := by
  unfold findCharFrom
  rw [List.drop_zero, ht,
    findCharIn_notmem lbrackC preAnchor (by decide) (JSeq.render inner ++ [rbrackC])]
  simp [preAnchor]

theorem anchored_drop (t : JTxt) : (preAnchor ++ t.render).drop 12 = t.render := by
  have h : (12 : Nat) = preAnchor.length := by decide
  rw [h, List.drop_left]

theorem anchored_scan (inner : JSeq) :
    scanList initScan ((preAnchor ++ (JTxt.arrT inner).render).drop 12)
      = some ((JSeq.render inner).length + 1) := by
  rw [anchored_drop]
  have h := scanArr_complete inner []
  rwa [List.append_nil] at h

/-- C1 (amended with the scan ceiling): whenever the anchor first occurs at
position `p` in the text and is immediately followed by the text of a
well-formed bracketed array (the grammar `JTxt` generates every well-formed
JSON array text) whose rendering is at most 500000 characters long, the
locator returns exactly that array text as the slice. -/
theorem c1_locator_exact (html : List Char) (p : Nat) (inner : JSeq) (post : List Char)
    (h1 : findSub anchorChars html = some p)
    (h2 : html.drop (p + 12) = (JTxt.arrT inner).render ++ post)
    (h3 : (JTxt.arrT inner).render.length ≤ 500000) :
    extractSlice html = some ((JTxt.arrT inner).render) := by
  obtain ⟨q, hq⟩ := isPref_exists (findSub_drop h1)
  have hfc : findCharFrom html lbrackC p = some (p + 12) := by
    unfold findCharFrom
    rw [hq]
    have hsplit : anchorChars ++ q = preAnchor ++ (lbrackC :: (lbraceC :: q)) := by
      simp [anchorChars]
    rw [hsplit, findCharIn_notmem lbrackC preAnchor (by decide) (lbraceC :: q)]
    have hl : preAnchor.length = 12 := by decide
    rw [hl, Option.map_some', Nat.add_comm]
  have hlen : (JTxt.arrT inner).render.length = (JSeq.render inner).length + 2 := by
    simp [JTxt.render]
  have hscan : scanList initScan ((html.drop (p + 12)).take 500000)
      = some ((JSeq.render inner).length + 1) := by
    rw [h2, scanList_take, scanArr_complete]
    have hlt : (JSeq.render inner).length + 1 < 500000 := by omega
    simp [hlt]
  have htake : (html.drop (p + 12)).take ((JSeq.render inner).length + 1 + 1)
      = (JTxt.arrT inner).render := by
    rw [h2]
    have he : (JSeq.render inner).length + 1 + 1 = (JTxt.arrT inner).render.length := by
      omega
    rw [he, List.take_left]
  simp only [extractSlice, h1, hfc, hscan, htake]

/-- Witness for C1 at a concrete input: anchor at position 0 followed by
the four-character array, with a trailing character. -/
theorem c1_witness : extractSlice c1SmallHtml = some ((JTxt.arrT c1SmallInner).render) :=
  c1_locator_exact c1SmallHtml 0 c1SmallInner ['x'] (by decide) (by decide) (by decide)

theorem len_neutral (c : Char) (h : isSpecial c = false) :
    (JTxt.render (JTxt.neutral c h)).length = 1 := by
  simp [JTxt.render]

theorem len_strT (b : List SChar) :
    (JTxt.render (JTxt.strT b)).length = (renderSBody b).length + 2 := by
  simp [JTxt.render]

theorem len_objT (s : JSeq) :
    (JTxt.render (JTxt.objT s)).length = (JSeq.render s).length + 2 := by
  simp [JTxt.render]

theorem len_arrT (s : JSeq) :
    (JTxt.render (JTxt.arrT s)).length = (JSeq.render s).length + 2 := by
  simp [JTxt.render]

theorem len_seq_nil : (JSeq.render JSeq.nil).length = 0 := by
  simp [JSeq.render]

theorem len_seq_cons (t : JTxt) (ts : JSeq) :
    (JSeq.render (JSeq.cons t ts)).length = t.render.length + (JSeq.render ts).length := by
  simp [JSeq.render]

theorem bigArrT_len : bigArrT.render.length = 500010 := by
  have ha : (renderSBody [aPlain]).length = 1 := rfl
  simp only [bigArrT, bigObjSeq, len_arrT, len_objT, len_strT, len_neutral,
    len_seq_cons, len_seq_nil, renderSBody_replicate, ha]

theorem extract_none_of_big (o rest0 : JSeq)
    (h : 500000 < (JTxt.arrT (JSeq.cons (JTxt.objT o) rest0)).render.length) :
    extractSlice (preAnchor ++ (JTxt.arrT (JSeq.cons (JTxt.objT o) rest0)).render)
      = none := by
  have h1 := anchored_findSub o rest0
  have hren : (JTxt.arrT (JSeq.cons (JTxt.objT o) rest0)).render
      = lbrackC :: (JSeq.render (JSeq.cons (JTxt.objT o) rest0) ++ [rbrackC]) := by
    simp [JTxt.render]
  have hfc := anchored_findChar (JTxt.arrT (JSeq.cons (JTxt.objT o) rest0)) _ hren
  have hlen : (JTxt.arrT (JSeq.cons (JTxt.objT o) rest0)).render.length
      = (JSeq.render (JSeq.cons (JTxt.objT o) rest0)).length + 2 := by
    rw [hren]
    simp
  have hscan0 := anchored_scan (JSeq.cons (JTxt.objT o) rest0)
  have hw : scanList initScan
      (((preAnchor ++ (JTxt.arrT (JSeq.cons (JTxt.objT o) rest0)).render).drop 12).take
        500000) = none := by
    rw [scanList_take, hscan0]
    have hk : ¬ ((JSeq.render (JSeq.cons (JTxt.objT o) rest0)).length + 1 < 500000) := by
      omega
    simp [hk]
  simp only [extractSlice, h1, hfc, hw]

/-- Counterexample to C1 as literally stated: `bigHtml` embeds, right after
the anchor's first occurrence, a well-formed 500010-character JSON array
(one object with one key and a 500000-character string value), yet the
locator returns no span at all. -/
theorem c1_counterexample : extractSlice bigHtml = none := by
  have h : 500000 < (JTxt.arrT (JSeq.cons (JTxt.objT bigObjSeq) JSeq.nil)).render.length := by
    have he : JTxt.arrT (JSeq.cons (JTxt.objT bigObjSeq) JSeq.nil) = bigArrT := rfl
    rw [he, bigArrT_len]
    norm_num
  exact extract_none_of_big bigObjSeq .nil h

/-- C2: a quoted string literal — brackets, braces and escaped quotes in
its body included — is scanned without ever completing the span and
without any effect on the final state, and each character processed in
string context leaves the depth counter unchanged and never closes the
span. -/
theorem c2_string_depth :
    (∀ (d : Int) (body : List SChar) (rest : List Char),
        scanList ⟨d, false, false⟩ ((JTxt.strT body).render ++ rest)
          = (scanList ⟨d, false, false⟩ rest).map (· + (JTxt.strT body).render.length))
    ∧ ∀ (s : ScanState) (c : Char), s.inString = true →
        (scanStep s c).depth = s.depth ∧ scanDone s c = false := by
  constructor
  · intro d body rest
    exact scanStrChunk body d rest
  · intro s c h
    refine ⟨?_, done_in s c h⟩
    unfold scanStep
    split_ifs <;> simp_all

/-- Witness for C2: an opening bracket inside a string leaves depth 3
unchanged and does not terminate the scan. -/
theorem c2_witness :
    (scanStep ⟨3, true, false⟩ lbrackC).depth = 3 ∧
      scanDone ⟨3, true, false⟩ lbrackC = false :=
  c2_string_depth.2 ⟨3, true, false⟩ lbrackC rfl

/-- C4: when the first position at which the scan's termination test
succeeds lies more than 500000 characters past the opening bracket, the
bounded loop never reaches it and the extractor returns the NotFound
value `none`. -/
theorem c4_bounded_scan (html : List Char) (p j k : Nat)
    (h1 : findSub anchorChars html = some p)
    (h2 : findCharFrom html lbrackC p = some j)
    (h3 : scanList initScan (html.drop j) = some k)
    (h4 : 500000 < k) :
    extract_tracklist_from_html html = none := by
  have hw : scanList initScan ((html.drop j).take 500000) = none := by
    rw [scanList_take, h3]
    have hk : ¬ (k < 500000) := by omega
    simp [hk]
  have hs : extractSlice html = none := by
    simp only [extractSlice, h1, h2, hw]
  simp only [extract_tracklist_from_html, hs]

/-- Witness for C4: the anchor followed by a span whose closing bracket is
500004 characters past the opening one; extraction reports NotFound. -/
theorem c4_witness : extract_tracklist_from_html c4Html = none := by
  have hren : (JTxt.arrT c4Seq).render = lbrackC :: (JSeq.render c4Seq ++ [rbrackC]) := by
    simp [JTxt.render]
  have h1 : findSub anchorChars c4Html = some 0 := anchored_findSub _ _
  have h2 : findCharFrom c4Html lbrackC 0 = some 12 :=
    anchored_findChar (JTxt.arrT c4Seq) c4Seq hren
  have hlen : (JSeq.render c4Seq).length = 500003 := by
    simp only [c4Seq, len_seq_cons, len_seq_nil, len_objT, repNeutral_len]
  have h3 : scanList initScan (c4Html.drop 12) = some 500004 := by
    have hsc := anchored_scan c4Seq
    rw [hlen] at hsc
    exact hsc
  exact c4_bounded_scan c4Html 0 12 500004 h1 h2 h3 (by norm_num)

/-- Counterexample to C3 as stated: on `c3BadHtml` the scanner locates a
balanced span whose slice `[ (obj ,) ]` is not valid JSON, and the
extractor returns `none` — exactly the value it returns when the anchor is
absent, so the decode-failure outcome is not a distinct value. -/
theorem c3_counterexample :
    extractSlice c3BadHtml = some [lbrackC, lbraceC, ',', rbraceC, rbrackC] ∧
    jsonParse [lbrackC, lbraceC, ',', rbraceC, rbrackC] = none ∧
    extract_tracklist_from_html c3BadHtml = none ∧
    findSub anchorChars c3NoAnchorHtml = none ∧
    extract_tracklist_from_html c3BadHtml
      = extract_tracklist_from_html c3NoAnchorHtml :=
  ⟨rfl, rfl, rfl, rfl, rfl⟩

/-- C3 (amended): when a span is located but its slice fails to decode,
the extractor returns `none` — the same value, not a distinct one, as the
NotFound outcome produced when the anchor is absent. -/
theorem c3_decode_failure_same_value :
    (∀ (html s : List Char), extractSlice html = some s → jsonParse s = none →
        extract_tracklist_from_html html = none)
    ∧ ∀ html : List Char, findSub anchorChars html = none →
        extract_tracklist_from_html html = none := by
  constructor
  · intro html s h1 h2
    simp only [extract_tracklist_from_html, h1, h2]
  · intro html h
    have hs : extractSlice html = none := by simp only [extractSlice, h]
    simp only [extract_tracklist_from_html, hs]

/-- Witness for C3 at the concrete malformed input. -/
theorem c3_witness : extract_tracklist_from_html c3BadHtml = none :=
  c3_decode_failure_same_value.1 c3BadHtml
    [lbrackC, lbraceC, ',', rbraceC, rbrackC] rfl rfl

theorem objGet_title (t : RawTrack) :
    objGet [(titleKey, JValue.str t.title), (mainKey, namesJ t.mainArtists),
      (featKey, namesJ t.featuringArtists), (remixKey, namesJ t.remixArtists)]
      titleKey = some (JValue.str t.title) := rfl

theorem objGet_main (t : RawTrack) :
    objGet [(titleKey, JValue.str t.title), (mainKey, namesJ t.mainArtists),
      (featKey, namesJ t.featuringArtists), (remixKey, namesJ t.remixArtists)]
      mainKey = some (namesJ t.mainArtists) := rfl

theorem objGet_feat (t : RawTrack) :
    objGet [(titleKey, JValue.str t.title), (mainKey, namesJ t.mainArtists),
      (featKey, namesJ t.featuringArtists), (remixKey, namesJ t.remixArtists)]
      featKey = some (namesJ t.featuringArtists) := rfl

theorem objGet_remix (t : RawTrack) :
    objGet [(titleKey, JValue.str t.title), (mainKey, namesJ t.mainArtists),
      (featKey, namesJ t.featuringArtists), (remixKey, namesJ t.remixArtists)]
      remixKey = some (namesJ t.remixArtists) := rfl

theorem namesOf_namesJ : ∀ ns : List (List Char),
    namesOf (ns.map fun n => JValue.obj [(nameKey, JValue.str n)]) = some ns
  | [] => rfl
  | n :: rest => by
    have hk : objGet [(nameKey, JValue.str n)] nameKey = some (JValue.str n) := rfl
    simp only [List.map_cons, namesOf, hk, namesOf_namesJ rest, Option.map_some']

theorem artistNames_namesJ (ns : List (List Char)) :
    artistNames (some (namesJ ns)) = some ns := by
  simp only [namesJ, artistNames, namesOf_namesJ]

theorem evalEntry_toJ (t : RawTrack) :
    evalEntry (toJ t) =
      if is_unreleased_track (trimChars t.title) then .skip
      else if t.mainArtists = [] then .skip
      else .emit (emitTrack t) := by
  have h1 := objGet_title t
  have h2 := objGet_main t
  have h3 := objGet_feat t
  have h4 := objGet_remix t
  simp only [toJ, evalEntry, getStrDefault, h1, h2, h3, h4, artistNames_namesJ,
    emitTrack]

theorem processTracks_toJ : ∀ ts : List RawTrack,
    processTracks (ts.map toJ) = some ((ts.filter keepTrack).map emitTrack)
  | [] => rfl
  | t :: ts => by
    have ih := processTracks_toJ ts
    by_cases h1 : is_unreleased_track (trimChars t.title) = true
    · simp [processTracks, evalEntry_toJ, h1, keepTrack, ih, List.filter_cons]
    · by_cases h2 : t.mainArtists = []
      · simp [processTracks, evalEntry_toJ, h1, h2, keepTrack, ih, List.filter_cons]
      · simp [processTracks, evalEntry_toJ, h1, h2, keepTrack, ih, List.filter_cons]

theorem keepTrack_eq_surviveSpec (t : RawTrack) : keepTrack t = surviveSpec t := by
  unfold keepTrack surviveSpec is_unreleased_track
  by_cases h : trimChars t.title = []
  · simp [h]
  · simp [h, Bool.not_or]

theorem processTracks_toJ_spec (ts : List RawTrack) :
    processTracks (ts.map toJ) = some ((ts.filter surviveSpec).map emitTrack) := by
  rw [processTracks_toJ]
  have hf : ts.filter keepTrack = ts.filter surviveSpec :=
    List.filter_congr fun t _ => keepTrack_eq_surviveSpec t
  rw [hf]

/-- C5: the classifier keeps exactly the entries whose trimmed title is
non-empty, contains no keyword of the fixed set in its lowercased form,
and whose main-contributor list is non-empty; survivors are emitted in
input order with no deduplication, formatted by the loop body. -/
theorem c5_release_filter (ts : List RawTrack) :
    processTracks (ts.map toJ) = some ((ts.filter surviveSpec).map emitTrack) :=
  processTracks_toJ_spec ts

theorem emitSpec_eq (t : RawTrack) :
    emitSpec t = if surviveSpec t then some (emitTrack t) else none := by
  unfold emitSpec emitTrack buildLine
  by_cases hf : t.featuringArtists = [] <;> by_cases hr : t.remixArtists = [] <;>
    simp [hf, hr]

theorem filterMap_emitSpec : ∀ ts : List RawTrack,
    ts.filterMap emitSpec = (ts.filter surviveSpec).map emitTrack
  | [] => rfl
  | t :: ts => by
    by_cases h : surviveSpec t = true <;>
      simp [List.filterMap_cons, List.filter_cons, emitSpec_eq, h, filterMap_emitSpec ts]

/-- C6: every surviving entry is emitted with the artist string built from
the comma-joined main names plus an optional ft. part, the title extended
by the optional remix annotation, and the `title - artist` display line;
in particular the Waves entry yields `Waves (C Remix) - A ft. B`. -/
theorem c6_artist_format :
    (∀ ts : List RawTrack, processTracks (ts.map toJ) = some (ts.filterMap emitSpec))
    ∧ processTracks [toJ wavesTrack]
        = some [⟨"Waves (C Remix) - A ft. B".data, "Waves (C Remix)".data,
            "A ft. B".data⟩] := by
  constructor
  · intro ts
    rw [processTracks_toJ_spec, filterMap_emitSpec]
  · rfl

theorem joinComma_ne_nil : ∀ xs : List (List Char), xs ≠ [] →
    (∀ n ∈ xs, n ≠ []) → joinComma xs ≠ []
  | [], h, _ => absurd rfl h
  | [x], _, hn => by
    have := hn x (by simp)
    simpa [joinComma] using this
  | x :: y :: rest, _, hn => by
    have hx := hn x (by simp)
    simp [joinComma, hx]

theorem c7_counterexample :
    processTracks [toJ emptyNameTrack] = some [⟨"X - ".data, "X".data, []⟩] ∧
      (FormattedTrack.mk ("X - ".data) ("X".data) []).artist = [] :=
  ⟨rfl, rfl⟩

/-- C7 (amended): every emitted track has a non-empty artist string
provided each main-contributor name of the input entries is non-empty
(an entry whose only main contributor has an empty name is emitted with
an empty artist string, as the counterexample shows). -/
theorem c7_nonempty_artist (ts : List RawTrack)
    (hnames : ∀ t ∈ ts, ∀ n ∈ t.mainArtists, n ≠ []) :
    ∀ fs, processTracks (ts.map toJ) = some fs → ∀ f ∈ fs, f.artist ≠ [] := by
  intro fs hp f hf
  rw [processTracks_toJ_spec ts] at hp
  obtain rfl := Option.some.inj hp.symm
  obtain ⟨t, ht, rfl⟩ := List.mem_map.mp hf
  have htts : t ∈ ts := List.mem_of_mem_filter ht
  have hsurv : surviveSpec t = true := List.of_mem_filter ht
  have hmains_ne : t.mainArtists ≠ [] := by
    intro hmain
    unfold surviveSpec at hsurv
    simp [hmain] at hsurv
  have hjoin : joinComma t.mainArtists ≠ [] :=
    joinComma_ne_nil _ hmains_ne (hnames t htts)
  unfold emitTrack buildLine
  by_cases hfeat : t.featuringArtists = [] <;> simp [hfeat, hjoin]

/-- Witness for C7 at a concrete entry with a non-empty main name. -/
theorem c7_witness : (FormattedTrack.mk ("X - A".data) ("X".data) ("A".data)).artist ≠ [] := by
  have h := c7_nonempty_artist [plainTrack] (by decide)
    [FormattedTrack.mk ("X - A".data) ("X".data) ("A".data)] rfl
  exact h _ (by simp)

theorem csvRows_eq : ∀ ts : List FormattedTrack,
    csvRows ts = (ts.map fun t => renderRow [t.title, t.artist]).join
  | [] => rfl
  | t :: ts => by simp [csvRows, csvRows_eq ts]

/-- C8: the CSV output is the `Song,Artist` header row followed by one
`title,artist` row per track in order (only the header when there are no
tracks), and a field is quoted, with quotes doubled, exactly when it
contains the delimiter, the quote character, or a line-break character. -/
theorem c8_csv_shape :
    (create_csv [] = renderRow ["Song".data, "Artist".data])
    ∧ (∀ tracks, create_csv tracks = renderRow ["Song".data, "Artist".data]
          ++ (tracks.map fun t => renderRow [t.title, t.artist]).join)
    ∧ (∀ f, f.any csvSpecial = true →
          renderField f = quoteC :: (escQuotes f ++ [quoteC]))
    ∧ (∀ f, f.any csvSpecial = false → renderField f = f) := by
  refine ⟨rfl, ?_, ?_, ?_⟩
  · intro tracks
    simp [create_csv, csvRows_eq]
  · intro f h
    simp [renderField, h]
  · intro f h
    simp [renderField, h]

/-- Witness for C8: a field containing the delimiter is quoted. -/
theorem c8_witness :
    renderField ("a,b".data) = quoteC :: (escQuotes ("a,b".data) ++ [quoteC]) :=
  c8_csv_shape.2.2.1 ("a,b".data) rfl

/-- C9: every successful extraction result counts exactly its tracks, and
when the URL contains a `/shows/<segment>/` component the show name is
that segment with hyphens replaced by spaces and Python title-casing
applied; proved for the result record built by the orchestrator. -/
theorem c9_showname_count (url html : List Char) (r : TracklistResult)
    (h : fetch_nts_tracklist url html = .ok r) :
    r.track_count = r.tracks.length
    ∧ ∀ seg, showSegAux url = some seg →
        r.show_name = pyTitle (seg.map fun c => if c = '-' then ' ' else c) := by
  unfold fetch_nts_tracklist at h
  split at h
  · cases h
  · cases h
  · split at h
    · cases h
    · cases h
      refine ⟨rfl, ?_⟩
      intro seg hseg
      simp [show_name_of, hseg]
  · cases h

/-- Witness for C9 on a concrete URL and page. -/
theorem c9_witness :
    c9Result.track_count = c9Result.tracks.length ∧
      c9Result.show_name = "My Show".data := by
  have h := c9_showname_count c9Url c9Html c9Result rfl
  exact ⟨h.1, (h.2 ("my-show".data) rfl).trans rfl⟩

theorem processTracks_all_skip : ∀ xs : List JValue,
    (∀ e ∈ xs, evalEntry e = .skip) → processTracks xs = some []
  | [], _ => rfl
  | x :: xt, h => by
    have hx := h x (by simp)
    have ih := processTracks_all_skip xt fun e he => h e (by simp [he])
    simp [processTracks, hx, ih]

/-- C10: a page whose decoded tracklist array is non-empty but whose
entries are all discarded by the release filter or main-contributor check
yields a successful result with zero tracks, not NotFound or an error. -/
theorem c10_all_filtered_ok (url html : List Char) (entries : List JValue)
    (hext : extract_tracklist_from_html html = some (.arr entries))
    (hne : entries ≠ [])
    (hskip : ∀ e ∈ entries, evalEntry e = .skip) :
    fetch_nts_tracklist url html = .ok ⟨show_name_of url, url, 0, []⟩ := by
  unfold fetch_nts_tracklist
  rw [hext]
  cases entries with
  | nil => exact absurd rfl hne
  | cons x xt =>
    have hp := processTracks_all_skip (x :: xt) hskip
    simp [hp]

/-- Witness for C10: a page whose only entry is titled `tbc`. -/
theorem c10_witness :
    fetch_nts_tracklist ['u'] c10Html = .ok ⟨"NTS Show".data, ['u'], 0, []⟩ :=
  c10_all_filtered_ok ['u'] c10Html [c10Entry] rfl (by simp)
    fun e he => by rw [List.mem_singleton.mp he]; rfl

end NTS
